import Mathlib

/-!
Verification of the audit-document parser (`main.py`).

The parser extracts `<custom_item>` blocks from a raw document, tokenizes
each block into a field map (handling double-quoted values that span several
lines), decomposes the `description` field into section/level/name with a
zero-padding rule, filters `800-53` reference tokens, and assembles one
output record per block.

Strings are embedded as `List Char`; Python's `str` helpers (`strip`,
`split`, `splitlines`, `zfill`, …) are translated below, restricted to the
whitespace characters that can occur in these documents.  The two scanning
loops (`findBlocks`, `tokenize`) are written with an explicit fuel bound of
`length + 1` rounds — always sufficient since every round consumes at least
one element — so that they compute by kernel reduction; the theorems
`findBlocks_eq`, `tokenize_cons_skip` and `tokenize_cons_colon` recover the
natural recursions of the source loops.
-/

/-- The whitespace characters recognised by the embedded `strip`/`\s`
(the ASCII and latin-1 part of Python's whitespace set). -/
def isSpaceChar (c : Char) : Bool :=
  c = ' ' || c = '\t' || c = '\n' || c = '\r' || c = '\x0b' || c = '\x0c' ||
  c = '\x1c' || c = '\x1d' || c = '\x1e' || c = '\x1f' || c = '\x85' || c = '\xa0'

/-- A character matched by the regex class `[\d\.]`. -/
def isDigitDot (c : Char) : Bool :=
  c.isDigit || c = '.'

/-- Python `str.lstrip()`. -/
def pyLstrip (s : List Char) : List Char :=
  s.dropWhile isSpaceChar

/-- Python `str.rstrip()`. -/
def pyRstrip (s : List Char) : List Char :=
  (s.reverse.dropWhile isSpaceChar).reverse

/-- Python `str.strip()`. -/
def pyStrip (s : List Char) : List Char :=
  pyRstrip (pyLstrip s)

/-- The character stripped by `str.strip('"')`. -/
def isQuoteChar (c : Char) : Bool :=
  c = '"'

/-- Python `str.strip('"')`: removes ALL leading and trailing double-quote
characters, not merely a single balanced pair. -/
def pyStripQuotes (s : List Char) : List Char :=
  ((s.dropWhile isQuoteChar).reverse.dropWhile isQuoteChar).reverse

/-- Python `s.startswith('"')`. -/
def beginsWithQuote (s : List Char) : Bool :=
  s.head? = some '"'

/-- The last character of a string, if any. -/
def lastChar (s : List Char) : Option Char :=
  s.reverse.head?

/-- Python `s.endswith('"')`. -/
def endsInQuote (s : List Char) : Bool :=
  lastChar s = some '"'

/-- `startsWithTok tag s` holds when `tag` is an initial run of `s`
(Python `s.startswith(tag)`). -/
def startsWithTok : List Char → List Char → Bool
  | [], _ => true
  | _ :: _, [] => false
  | t :: ts, c :: cs => t = c && startsWithTok ts cs

/-- Split `s` at the first occurrence of the contiguous substring `tag`,
returning the text before it and the text after it (`None` when `tag` does
not occur).  This models both Python's `split(sep, 1)` and the scanning a
regex engine performs for a literal pattern. -/
def splitFirst (tag : List Char) : List Char → Option (List Char × List Char)
  | [] => if startsWithTok tag [] then some ([], []) else none
  | c :: rest =>
    if startsWithTok tag (c :: rest) then some ([], (c :: rest).drop tag.length)
    else (splitFirst tag rest).map (fun p => (c :: p.1, p.2))

/-- Python `str.split(",")`: every comma is a separator and empty pieces are
kept, so the result is always one piece more than the number of commas. -/
def splitOnComma : List Char → List (List Char)
  | [] => [[]]
  | c :: rest =>
    if c = ',' then [] :: splitOnComma rest
    else match splitOnComma rest with
         | t :: ts => (c :: t) :: ts
         | [] => [[c]]

/-- Python `sep.join(xs)`. -/
def joinWith (sep : List Char) : List (List Char) → List Char
  | [] => []
  | [x] => x
  | x :: y :: xs => x ++ sep ++ joinWith sep (y :: xs)

/-- Concatenation of lines, each preceded by one newline: the shape of the
text accumulated by the multiline-value loop. -/
def joinNL (ls : List (List Char)) : List Char :=
  (ls.map (fun l => '\n' :: l)).flatten

/-- A character that terminates a line for Python `str.splitlines`. -/
def isLineBreak (c : Char) : Bool :=
  c = '\n' || c = '\r' || c = '\x0b' || c = '\x0c' ||
  c = '\x1c' || c = '\x1d' || c = '\x1e' || c = '\x85' ||
  c = '\u2028' || c = '\u2029'

/-- Worker for `splitlines`; `cur` is the current line, in reverse. -/
def splitlinesAux (cur : List Char) : List Char → List (List Char)
  | [] => if cur = [] then [] else [cur.reverse]
  | '\r' :: '\n' :: rest => cur.reverse :: splitlinesAux [] rest
  | c :: rest =>
    if isLineBreak c then cur.reverse :: splitlinesAux [] rest
    else splitlinesAux (c :: cur) rest

/-- Python `str.splitlines()`: no trailing empty line for a final
terminator, and `\r\n` counts as a single boundary. -/
def splitlines (s : List Char) : List (List Char) :=
  splitlinesAux [] s

/-- Python `str.zfill(w)` on an unsigned digit string. -/
def zfill (w : Nat) (s : List Char) : List Char :=
  if w ≤ s.length then s else List.replicate (w - s.length) '0' ++ s

/-- Python `str.isdigit()` (ASCII digits). -/
def pyIsDigitStr (s : List Char) : Bool :=
  !(s.isEmpty) && s.all Char.isDigit

/-- Python `int(...)` on a digit string. -/
def strToNat (s : List Char) : Nat :=
  s.foldl (fun n c => n * 10 + (c.toNat - 48)) 0

/-- The literal `<custom_item>` open marker. -/
def openTag : List Char := "<custom_item>".data

/-- The literal `</custom_item>` close marker. -/
def closeTag : List Char := "</custom_item>".data

/-- Worker for `findBlocks`, structurally recursive on a fuel bound so that
it evaluates by kernel reduction; each round consumes at least one
character, so `s.length + 1` rounds always suffice
(`findBlocksAux_fuel_irrelevant` below makes this exact). -/
def findBlocksAux : Nat → List Char → List (List Char)
  | 0, _ => []
  | fuel + 1, s =>
    match splitFirst openTag s with
    | none => []
    | some pr =>
      match splitFirst closeTag pr.2 with
      | none => []
      | some qr => qr.1 :: findBlocksAux fuel qr.2

/-- `re.findall(r"<custom_item>(.*?)</custom_item>", raw, re.DOTALL)`:
repeatedly find the next open marker, then the nearest following close
marker, and capture the text in between.  Because the pattern is a literal
open tag, a non-greedy gap and a literal close tag, the regex engine's
leftmost-shortest matches are exactly these captures. -/
def findBlocks (s : List Char) : List (List Char) :=
  findBlocksAux (s.length + 1) s

/-- The multiline-value accumulation loop of `parse_custom_item_block`:
append each following line, preceded by a newline, until a line whose
right-trimmed text ends in a double quote; return the accumulated text and
the unconsumed lines. -/
def accumMultiline (acc : List Char) : List (List Char) → List Char × List (List Char)
  | [] => (acc, [])
  | l :: rest =>
    if endsInQuote (pyRstrip l) then (acc ++ '\n' :: l, rest)
    else accumMultiline (acc ++ '\n' :: l) rest

/-- `if val_accum.endswith('"'): val_accum = val_accum[:-1]`. -/
def dropFinalQuote (s : List Char) : List Char :=
  if endsInQuote s then s.dropLast else s

/-- The field map: later entries are stored in front, so looking up the
first hit realizes the dictionary's last-write-wins semantics (absent keys
give the empty string, as `data.get(key, "")` does). -/
def lookupField (data : List (List Char × List Char)) (k : List Char) : List Char :=
  match data with
  | [] => []
  | (k', v) :: rest => if k' = k then v else lookupField rest k

/-- Worker for `tokenize`, the line loop of `parse_custom_item_block`:
skip lines without `:`, split each remaining line at its first `:`, and
store the (possibly multiline) value under the trimmed key.  Fuel-recursive
for kernel reduction; every round consumes at least the head line, so
`ls.length + 1` rounds always suffice (`tokenizeAux_fuel_irrelevant`). -/
def tokenizeAux : Nat → List (List Char) → List (List Char × List Char) → List (List Char × List Char)
  | 0, _, data => data
  | _ + 1, [], data => data
  | fuel + 1, line :: rest, data =>
    match splitFirst (':' :: []) line with
    | none => tokenizeAux fuel rest data
    | some kv =>
      let key := pyStrip kv.1
      let val := pyLstrip kv.2
      if beginsWithQuote val && !endsInQuote (pyRstrip val) then
        tokenizeAux fuel (accumMultiline (val.drop 1) rest).2
          ((key, pyStrip (dropFinalQuote (accumMultiline (val.drop 1) rest).1)) :: data)
      else
        tokenizeAux fuel rest ((key, pyStripQuotes (pyStrip val)) :: data)

/-- The `while idx < total` loop of `parse_custom_item_block`, building the
field map. -/
def tokenize (ls : List (List Char)) (data : List (List Char × List Char)) :
    List (List Char × List Char) :=
  tokenizeAux (ls.length + 1) ls data

/-- The field map built from one block's inner text. -/
def blockFields (block_text : List Char) : List (List Char × List Char) :=
  tokenize (splitlines block_text) []

/-- `re.match(r"^\s*([\d\.]+)\s*\(L(\d+)\)\s*(.+)$", t)` for an already
stripped `t` (the caller strips first, so `t` has no outer whitespace and
in particular does not end in a newline, making `$` the end of the text).
All character classes of the pattern are disjoint from their successors
except the final `\s*(.+)`, where giving whitespace back to `.+` could only
matter if the text ended in whitespace — impossible here because `t` is
stripped — so the greedy left-to-right scan below is exact: `.+` cannot
cross a newline and `$` only matches at the very end, whence the last
group must be nonempty and newline-free. -/
def matchDesc (t : List Char) : Option (List Char × List Char × List Char) :=
  let s0 := t.dropWhile isSpaceChar
  let g1 := s0.takeWhile isDigitDot
  if g1.isEmpty then none
  else
    match (s0.dropWhile isDigitDot).dropWhile isSpaceChar with
    | '(' :: 'L' :: r3 =>
      let g2 := r3.takeWhile Char.isDigit
      if g2.isEmpty then none
      else
        match r3.dropWhile Char.isDigit with
        | ')' :: r5 =>
          let g3 := r5.dropWhile isSpaceChar
          if g3.isEmpty then none
          else if g3.contains '\n' then none
          else some (g1, g2, g3)
        | _ => none
    | _ => none

/-- The zero-padding applied to `section_raw` in `parse_description_field`:
split at the first dot (when present) and `zfill(2)` the first segment when
it is a digit string whose value is below 10. -/
def padSection (section_raw : List Char) : List Char :=
  match splitFirst ('.' :: []) section_raw with
  | some pr =>
    (if pyIsDigitStr pr.1 && decide (strToNat pr.1 < 10) then zfill 2 pr.1 else pr.1)
      ++ '.' :: pr.2
  | none =>
    if pyIsDigitStr section_raw && decide (strToNat section_raw < 10) then
      zfill 2 section_raw
    else section_raw

/-- `parse_description_field`: decompose a description into
(section, level, name), falling back to empty section/level and the
trimmed, quote-stripped text when the pattern does not match. -/
def parse_description_field (desc_field : List Char) :
    List Char × List Char × List Char :=
  match matchDesc (pyStrip desc_field) with
  | none => ([], [], pyStripQuotes (pyStrip desc_field))
  | some g =>
    (padSection (pyStrip g.1), pyStrip g.2.1, pyStripQuotes (pyStrip g.2.2))

/-- The `800-53` family marker. -/
def nistTag : List Char := "800-53".data

/-- `[p.strip() for p in ref_field.split(",") if p.strip()]`. -/
def refParts (ref_field : List Char) : List (List Char) :=
  ((splitOnComma ref_field).map pyStrip).filter (fun p => !p.isEmpty)

/-- `[p for p in parts if p.startswith("800-53")]`. -/
def refNistTokens (ref_field : List Char) : List (List Char) :=
  (refParts ref_field).filter (fun p => startsWithTok nistTag p)

/-- `split_reference_for_nist`: keep only `800-53…` tokens and join them
with a comma-space. -/
def split_reference_for_nist (ref_field : List Char) : List Char :=
  joinWith (',' :: ' ' :: []) (refNistTokens ref_field)

/-- Modelled from the spec: the second source variant of the reference
filter (not present under `src/`), which renders the kept tokens one per
line, joined with a newline instead of a comma-space. -/
def split_reference_for_nist_lines (ref_field : List Char) : List Char :=
  joinWith ('\n' :: []) (refNistTokens ref_field)

/-- One output record (one row of the generated table). -/
structure Record where
  Section : List Char
  Level : List Char
  Name : List Char
  Description : List Char
  RemediationProcedure : List Char
  NIST : List Char
deriving DecidableEq

/-- `parse_custom_item_block`: tokenize one block and assemble its record,
with every absent field defaulting to the empty string. -/
def parse_custom_item_block (block_text : List Char) : Record :=
  let data := blockFields block_text
  let p := parse_description_field (lookupField data "description".data)
  { Section := p.1
    Level := p.2.1
    Name := p.2.2
    Description := lookupField data "info".data
    RemediationProcedure := lookupField data "solution".data
    NIST := split_reference_for_nist (lookupField data "reference".data) }

/-- The only fatal condition of the conversion. -/
inductive ConvError where
  | NoBlocksFound
deriving DecidableEq

/-- The whole conversion on an in-memory document: extract the blocks,
abort with `NoBlocksFound` when there are none (`sys.exit(1)`), otherwise
parse every block, in order, into one record. -/
def runConversion (doc : List Char) : Except ConvError (List Record) :=
  let ms := findBlocks doc
  if ms.isEmpty then Except.error ConvError.NoBlocksFound
  else Except.ok (ms.map parse_custom_item_block)

/-- The section padding in the words of the specification: the dotted path
with its first dot-delimited segment zero-padded to two digits when that
segment's numeric value is below 10, and everything from the first dot on
passed through unchanged. -/
def specPadSection (path : List Char) : List Char :=
  (if strToNat (path.takeWhile (fun c => c ≠ '.')) < 10 then
    zfill 2 (path.takeWhile (fun c => c ≠ '.'))
  else path.takeWhile (fun c => c ≠ '.')) ++ path.dropWhile (fun c => c ≠ '.')

/-! ### Helper lemmas -/

/-- `splitFirst` consumes at least the tag, so the remainder is shorter. -/
theorem splitFirst_some_length (tag : List Char) (htag : tag ≠ []) :
    ∀ s pr, splitFirst tag s = some pr → pr.2.length < s.length := by
  intro s
  induction s with
  | nil =>
    intro pr h
    cases tag with
    | nil => exact absurd rfl htag
    | cons t ts => simp [splitFirst, startsWithTok] at h
  | cons c rest ih =>
    intro pr h
    rw [splitFirst] at h
    by_cases hs : startsWithTok tag (c :: rest) = true
    · rw [if_pos hs] at h
      cases h
      cases tag with
      | nil => exact absurd rfl htag
      | cons t ts =>
        simp only [List.drop, List.length_cons, List.length_drop]
        omega
    · rw [if_neg hs] at h
      rcases Option.map_eq_some'.mp h with ⟨q, hq, hpr⟩
      have := ih q hq
      subst hpr
      simp only [List.length_cons]
      omega

/-- Any sufficient amount of fuel computes the same block list. -/
theorem findBlocksAux_fuel_irrelevant :
    ∀ n f1 f2 (s : List Char), s.length = n → n < f1 → n < f2 →
      findBlocksAux f1 s = findBlocksAux f2 s := by
  intro n
  induction n using Nat.strong_induction_on with
  | _ n ih =>
    intro f1 f2 s hn h1 h2
    match f1, f2 with
    | a + 1, b + 1 =>
      show findBlocksAux (a + 1) s = findBlocksAux (b + 1) s
      rw [findBlocksAux, findBlocksAux]
      cases hpr : splitFirst openTag s with
      | none => rfl
      | some pr =>
        show (match splitFirst closeTag pr.2 with
              | none => []
              | some qr => qr.1 :: findBlocksAux a qr.2) =
            (match splitFirst closeTag pr.2 with
              | none => []
              | some qr => qr.1 :: findBlocksAux b qr.2)
        cases hqr : splitFirst closeTag pr.2 with
        | none => rfl
        | some qr =>
          show qr.1 :: findBlocksAux a qr.2 = qr.1 :: findBlocksAux b qr.2
          have hA : pr.2.length < s.length :=
            splitFirst_some_length openTag (by decide) s pr hpr
          have hB : qr.2.length < pr.2.length :=
            splitFirst_some_length closeTag (by decide) pr.2 qr hqr
          have hrec := ih qr.2.length (by omega) a b qr.2 rfl (by omega) (by omega)
          rw [hrec]

/-- `findBlocks` satisfies the natural recursion of the scanning loop. -/
theorem findBlocks_eq (s : List Char) :
    findBlocks s =
      match splitFirst openTag s with
      | none => []
      | some pr =>
        match splitFirst closeTag pr.2 with
        | none => []
        | some qr => qr.1 :: findBlocks qr.2 := by
  show findBlocksAux (s.length + 1) s = _
  rw [findBlocksAux]
  cases hpr : splitFirst openTag s with
  | none => rfl
  | some pr =>
    show (match splitFirst closeTag pr.2 with
          | none => []
          | some qr => qr.1 :: findBlocksAux s.length qr.2) =
        (match splitFirst closeTag pr.2 with
          | none => []
          | some qr => qr.1 :: findBlocks qr.2)
    cases hqr : splitFirst closeTag pr.2 with
    | none => rfl
    | some qr =>
      show qr.1 :: findBlocksAux s.length qr.2 = qr.1 :: findBlocks qr.2
      have hA : pr.2.length < s.length :=
        splitFirst_some_length openTag (by decide) s pr hpr
      have hB : qr.2.length < pr.2.length :=
        splitFirst_some_length closeTag (by decide) pr.2 qr hqr
      rw [findBlocksAux_fuel_irrelevant qr.2.length s.length (qr.2.length + 1) qr.2 rfl
        (by omega) (by omega)]
      rfl

/-- The accumulation loop only consumes lines. -/
theorem accumMultiline_snd_length (acc : List Char) (ls : List (List Char)) :
    (accumMultiline acc ls).2.length ≤ ls.length := by
  induction ls generalizing acc with
  | nil => simp [accumMultiline]
  | cons l rest ih =>
    rw [accumMultiline]
    by_cases h : endsInQuote (pyRstrip l) = true
    · simp [h]
    · rw [if_neg h]
      exact Nat.le_succ_of_le (ih _)

/-- Any sufficient amount of fuel computes the same field map. -/
theorem tokenizeAux_fuel_irrelevant :
    ∀ n f1 f2 (ls : List (List Char)) data, ls.length = n → n < f1 → n < f2 →
      tokenizeAux f1 ls data = tokenizeAux f2 ls data := by
  intro n
  induction n using Nat.strong_induction_on with
  | _ n ih =>
    intro f1 f2 ls data hn h1 h2
    match f1, f2 with
    | a + 1, b + 1 =>
      cases ls with
      | nil => rfl
      | cons line rest =>
        have hr : rest.length < n := by
          simp only [List.length_cons] at hn
          omega
        show tokenizeAux (a + 1) (line :: rest) data
            = tokenizeAux (b + 1) (line :: rest) data
        rw [tokenizeAux, tokenizeAux]
        cases hkv : splitFirst (':' :: []) line with
        | none =>
          exact ih rest.length hr a b rest data rfl (by omega) (by omega)
        | some kv =>
          show (let key := pyStrip kv.1
                let val := pyLstrip kv.2
                if beginsWithQuote val && !endsInQuote (pyRstrip val) then
                  tokenizeAux a (accumMultiline (val.drop 1) rest).2
                    ((key, pyStrip (dropFinalQuote
                      (accumMultiline (val.drop 1) rest).1)) :: data)
                else
                  tokenizeAux a rest ((key, pyStripQuotes (pyStrip val)) :: data)) =
              (let key := pyStrip kv.1
                let val := pyLstrip kv.2
                if beginsWithQuote val && !endsInQuote (pyRstrip val) then
                  tokenizeAux b (accumMultiline (val.drop 1) rest).2
                    ((key, pyStrip (dropFinalQuote
                      (accumMultiline (val.drop 1) rest).1)) :: data)
                else
                  tokenizeAux b rest ((key, pyStripQuotes (pyStrip val)) :: data))
          dsimp only
          by_cases hb : (beginsWithQuote (pyLstrip kv.2)
              && !endsInQuote (pyRstrip (pyLstrip kv.2))) = true
          · rw [if_pos hb, if_pos hb]
            have hlen := accumMultiline_snd_length ((pyLstrip kv.2).drop 1) rest
            exact ih (accumMultiline ((pyLstrip kv.2).drop 1) rest).2.length
              (by omega) a b _ _ rfl (by omega) (by omega)
          · rw [if_neg hb, if_neg hb]
            exact ih rest.length hr a b rest _ rfl (by omega) (by omega)

/-- The tokenizer does nothing on an empty line list. -/
theorem tokenize_nil (data : List (List Char × List Char)) :
    tokenize [] data = data := rfl

/-- A line with no `:` separator is skipped. -/
theorem tokenize_cons_skip (line : List Char) (rest : List (List Char))
    (data : List (List Char × List Char)) (h : splitFirst (':' :: []) line = none) :
    tokenize (line :: rest) data = tokenize rest data := by
  show tokenizeAux ((line :: rest).length + 1) (line :: rest) data = _
  rw [tokenizeAux, h]
  rfl

/-- Splitting at the first occurrence of a single character. -/
theorem splitFirst_single_append (ch : Char) (kp vp : List Char) (hk : ch ∉ kp) :
    splitFirst (ch :: []) (kp ++ ch :: vp) = some (kp, vp) := by
  induction kp with
  | nil =>
    show splitFirst (ch :: []) (ch :: vp) = some ([], vp)
    rw [splitFirst]
    simp [startsWithTok]
  | cons d kp' ih =>
    have hd : ch ≠ d := fun hcd => hk (hcd ▸ List.mem_cons_self d kp')
    have hk' : ch ∉ kp' := fun hm => hk (List.mem_cons_of_mem d hm)
    show splitFirst (ch :: []) (d :: (kp' ++ ch :: vp)) = _
    rw [splitFirst]
    have hsw : startsWithTok (ch :: []) (d :: (kp' ++ ch :: vp)) = false := by
      simp [startsWithTok, hd]
    rw [hsw]
    simp only [Bool.false_eq_true, if_false, ih hk']
    rfl

/-- A string not containing a character is not split at it. -/
theorem splitFirst_single_none (ch : Char) (line : List Char) (h : ch ∉ line) :
    splitFirst (ch :: []) line = none := by
  induction line with
  | nil => rfl
  | cons d t ih =>
    have hd : ch ≠ d := fun hcd => h (hcd ▸ List.mem_cons_self d t)
    have ht : ch ∉ t := fun hm => h (List.mem_cons_of_mem d hm)
    rw [splitFirst]
    have hsw : startsWithTok (ch :: []) (d :: t) = false := by
      simp [startsWithTok, hd]
    rw [hsw]
    simp [ih ht]

/-- Processing a line with a separator: split at the first `:`, then either
open the multiline accumulation (value starts with a quote but its
right-trimmed text does not end with one) or store the single-line value. -/
theorem tokenize_cons_colon (kp vp : List Char) (rest : List (List Char))
    (data : List (List Char × List Char)) (hk : ':' ∉ kp) :
    tokenize ((kp ++ ':' :: vp) :: rest) data =
      if beginsWithQuote (pyLstrip vp) && !endsInQuote (pyRstrip (pyLstrip vp)) then
        tokenize (accumMultiline ((pyLstrip vp).drop 1) rest).2
          ((pyStrip kp, pyStrip (dropFinalQuote
            (accumMultiline ((pyLstrip vp).drop 1) rest).1)) :: data)
      else
        tokenize rest ((pyStrip kp, pyStripQuotes (pyStrip (pyLstrip vp))) :: data) := by
  show tokenizeAux ((kp ++ ':' :: vp) :: rest).length.succ _ _ = _
  rw [tokenizeAux, splitFirst_single_append ':' kp vp hk]
  dsimp only
  by_cases hb : (beginsWithQuote (pyLstrip vp) && !endsInQuote (pyRstrip (pyLstrip vp))) = true
  · rw [if_pos hb, if_pos hb]
    have hlen := accumMultiline_snd_length ((pyLstrip vp).drop 1) rest
    exact tokenizeAux_fuel_irrelevant (accumMultiline ((pyLstrip vp).drop 1) rest).2.length
      ((kp ++ ':' :: vp) :: rest).length
      ((accumMultiline ((pyLstrip vp).drop 1) rest).2.length + 1) _ _ rfl
      (by simp only [List.length_cons]; omega) (by omega)
  · rw [if_neg hb, if_neg hb]
    exact tokenizeAux_fuel_irrelevant rest.length ((kp ++ ':' :: vp) :: rest).length
      (rest.length + 1) rest _ rfl (by simp) (by omega)

/-- The head of a list is a member. -/
theorem mem_of_head?_eq (s : List Char) (c : Char) (h : s.head? = some c) : c ∈ s := by
  cases s with
  | nil => simp at h
  | cons a t =>
    simp only [List.head?_cons, Option.some.injEq] at h
    exact h ▸ List.mem_cons_self a t

/-- The last character of a list is a member. -/
theorem mem_of_lastChar_eq (s : List Char) (c : Char) (h : lastChar s = some c) : c ∈ s := by
  unfold lastChar at h
  have := mem_of_head?_eq s.reverse c h
  simpa using this

/-- Trimming a predicate from both ends changes nothing when neither end
character satisfies it. -/
theorem trim_eq_self (p : Char → Bool) (s : List Char)
    (h1 : ∀ c, s.head? = some c → p c = false)
    (h2 : ∀ c, lastChar s = some c → p c = false) :
    ((s.dropWhile p).reverse.dropWhile p).reverse = s := by
  cases s with
  | nil => rfl
  | cons a t =>
    have ha : p a = false := h1 a rfl
    rw [List.dropWhile_cons_of_neg (by simp [ha])]
    cases hr : (a :: t).reverse with
    | nil => simp at hr
    | cons b u =>
      have hb : p b = false := h2 b (by unfold lastChar; rw [hr]; rfl)
      rw [List.dropWhile_cons_of_neg (by simp [hb]), ← hr, List.reverse_reverse]

/-- `strip()` is the identity when neither end is whitespace. -/
theorem pyStrip_eq_self (s : List Char)
    (h1 : ∀ c, s.head? = some c → isSpaceChar c = false)
    (h2 : ∀ c, lastChar s = some c → isSpaceChar c = false) :
    pyStrip s = s :=
  trim_eq_self isSpaceChar s h1 h2

/-- `strip('"')` is the identity when neither end is a quote. -/
theorem pyStripQuotes_eq_self (s : List Char)
    (h1 : ∀ c, s.head? = some c → isQuoteChar c = false)
    (h2 : ∀ c, lastChar s = some c → isQuoteChar c = false) :
    pyStripQuotes s = s :=
  trim_eq_self isQuoteChar s h1 h2

/-- `strip()` is the identity on whitespace-free text. -/
theorem pyStrip_eq_self_of_all (s : List Char) (h : ∀ c ∈ s, isSpaceChar c = false) :
    pyStrip s = s :=
  pyStrip_eq_self s (fun c hc => h c (mem_of_head?_eq s c hc))
    (fun c hc => h c (mem_of_lastChar_eq s c hc))

/-- Digits are not whitespace. -/
theorem not_space_of_digit (c : Char) (h : c.isDigit = true) : isSpaceChar c = false := by
  by_contra hs
  rw [Bool.not_eq_false] at hs
  simp only [isSpaceChar, Bool.or_eq_true, decide_eq_true_eq] at hs
  rcases hs with
    (((((((((((rfl | rfl) | rfl) | rfl) | rfl) | rfl) | rfl) | rfl) | rfl) | rfl) | rfl) | rfl) <;>
    exact absurd h (by decide)

/-- Digit-or-dot characters are not whitespace. -/
theorem not_space_of_digitDot (c : Char) (h : isDigitDot c = true) : isSpaceChar c = false := by
  rw [isDigitDot, Bool.or_eq_true] at h
  rcases h with hd | hdot
  · exact not_space_of_digit c hd
  · rw [decide_eq_true_eq] at hdot
    subst hdot
    decide

/-- Digit-or-dot characters are not quotes. -/
theorem not_quote_of_digitDot (c : Char) (h : isDigitDot c = true) : isQuoteChar c = false := by
  rw [isDigitDot, Bool.or_eq_true] at h
  rcases h with hd | hdot
  · by_contra hq
    rw [Bool.not_eq_false] at hq
    simp only [isQuoteChar, decide_eq_true_eq] at hq
    subst hq
    exact absurd hd (by decide)
  · rw [decide_eq_true_eq] at hdot
    subst hdot
    decide

/-- `takeWhile` walks through a fully satisfying prefix. -/
theorem takeWhile_append_all (p : Char → Bool) (xs ys : List Char)
    (h : ∀ c ∈ xs, p c = true) :
    (xs ++ ys).takeWhile p = xs ++ ys.takeWhile p := by
  induction xs with
  | nil => simp
  | cons a t ih =>
    have ha : p a = true := h a (List.mem_cons_self a t)
    rw [List.cons_append, List.takeWhile_cons_of_pos ha, ih
      (fun c hc => h c (List.mem_cons_of_mem a hc))]
    rfl

/-- `dropWhile` walks through a fully satisfying prefix. -/
theorem dropWhile_append_all (p : Char → Bool) (xs ys : List Char)
    (h : ∀ c ∈ xs, p c = true) :
    (xs ++ ys).dropWhile p = ys.dropWhile p := by
  induction xs with
  | nil => simp
  | cons a t ih =>
    have ha : p a = true := h a (List.mem_cons_self a t)
    rw [List.cons_append, List.dropWhile_cons_of_pos ha, ih
      (fun c hc => h c (List.mem_cons_of_mem a hc))]

/-- The head of the remainder of `dropWhile` fails the predicate. -/
theorem dropWhile_head_false (p : Char → Bool) :
    ∀ (l : List Char) a t, l.dropWhile p = a :: t → p a = false := by
  intro l
  induction l with
  | nil => intro a t h; simp at h
  | cons b u ih =>
    intro a t h
    by_cases hb : p b = true
    · rw [List.dropWhile_cons_of_pos hb] at h
      exact ih a t h
    · rw [List.dropWhile_cons_of_neg hb] at h
      cases h
      exact Bool.not_eq_true _ ▸ Bool.of_not_eq_true hb

/-- The last character of a non-empty concatenation lies in its right part. -/
theorem lastChar_append (x y : List Char) (hy : y ≠ []) :
    lastChar (x ++ y) = lastChar y := by
  unfold lastChar
  rw [List.reverse_append]
  cases hr : y.reverse with
  | nil => exact absurd (by simpa using hr) hy
  | cons b u => rfl

/-- Dropping the head preserves not-ending-in-a-quote. -/
theorem endsInQuote_tail (c : Char) (l : List Char) (h : endsInQuote (c :: l) = false) :
    endsInQuote l = false := by
  cases hl : l with
  | nil => rfl
  | cons a t =>
    rw [← hl]
    have hcl : lastChar (c :: l) = lastChar l := by
      have hrepr : c :: l = [c] ++ l := rfl
      rw [hrepr, lastChar_append [c] l (by rw [hl]; simp)]
    unfold endsInQuote at h ⊢
    rw [← hcl]
    exact h

/-- Appending a newline-led line preserves not-ending-in-a-quote. -/
theorem endsInQuote_append_cons (x l : List Char) (h : endsInQuote l = false) :
    endsInQuote (x ++ '\n' :: l) = false := by
  unfold endsInQuote
  rw [lastChar_append x ('\n' :: l) (by simp)]
  cases hl : l with
  | nil => decide
  | cons a t =>
    rw [← hl]
    have hcl : lastChar ('\n' :: l) = lastChar l := by
      have hrepr : '\n' :: l = ['\n'] ++ l := rfl
      rw [hrepr, lastChar_append ['\n'] l (by rw [hl]; simp)]
    rw [hcl]
    unfold endsInQuote at h
    exact h

/-- If the right-trimmed text does not end in a quote, neither does the
original text (a final quote survives right-trimming). -/
theorem endsInQuote_rstrip_false (l : List Char) (h : endsInQuote (pyRstrip l) = false) :
    endsInQuote l = false := by
  by_contra hq
  rw [Bool.not_eq_false] at hq
  simp only [endsInQuote, decide_eq_true_eq] at hq
  have hlast : lastChar (pyRstrip l) = some '"' := by
    unfold lastChar pyRstrip
    rw [List.reverse_reverse]
    unfold lastChar at hq
    cases hr : l.reverse with
    | nil => rw [hr] at hq; simp at hq
    | cons b u =>
      rw [hr] at hq
      simp only [List.head?_cons, Option.some.injEq] at hq
      subst hq
      rw [List.dropWhile_cons_of_neg (by decide)]
      rfl
  simp [endsInQuote, hlast] at h

/-- The final-quote trim does nothing when there is no final quote. -/
theorem dropFinalQuote_eq_self (s : List Char) (h : endsInQuote s = false) :
    dropFinalQuote s = s := by
  unfold dropFinalQuote
  rw [h]
  rfl

/-- A closed accumulation: with no intermediate line ending in a quote and a
closing line that does, the loop consumes exactly through the closing line
and appends each consumed line after a newline. -/
theorem accumMultiline_closed (ls₁ : List (List Char)) :
    ∀ acc lq ls₂, (∀ l ∈ ls₁, endsInQuote (pyRstrip l) = false) →
      endsInQuote (pyRstrip lq) = true →
      accumMultiline acc (ls₁ ++ lq :: ls₂) = (acc ++ joinNL (ls₁ ++ [lq]), ls₂) := by
  induction ls₁ with
  | nil =>
    intro acc lq ls₂ _ hq
    show accumMultiline acc (lq :: ls₂) = _
    rw [accumMultiline, if_pos hq]
    simp [joinNL]
  | cons l t ih =>
    intro acc lq ls₂ h1 hq
    have hl : endsInQuote (pyRstrip l) = false := h1 l (List.mem_cons_self l t)
    show accumMultiline acc (l :: (t ++ lq :: ls₂)) = _
    rw [accumMultiline, if_neg (by simp [hl])]
    rw [ih (acc ++ '\n' :: l) lq ls₂ (fun x hx => h1 x (List.mem_cons_of_mem l hx)) hq]
    simp [joinNL]

/-- An unterminated accumulation: with no remaining line ending in a quote,
the loop consumes every line and keeps the whole accumulated text. -/
theorem accumMultiline_open (ls : List (List Char)) :
    ∀ acc, (∀ l ∈ ls, endsInQuote (pyRstrip l) = false) →
      accumMultiline acc ls = (acc ++ joinNL ls, []) := by
  induction ls with
  | nil => intro acc _; simp [accumMultiline, joinNL]
  | cons l t ih =>
    intro acc h
    rw [accumMultiline, if_neg (by simp [h l (List.mem_cons_self l t)])]
    rw [ih _ (fun x hx => h x (List.mem_cons_of_mem l hx))]
    simp [joinNL]

/-- Accumulated text over quote-free lines does not end in a quote, as long
as the starting text does not. -/
theorem accum_text_no_quote (ls : List (List Char)) :
    ∀ acc, endsInQuote acc = false →
      (∀ l ∈ ls, endsInQuote (pyRstrip l) = false) →
      endsInQuote (acc ++ joinNL ls) = false := by
  induction ls with
  | nil => intro acc ha _; simpa [joinNL] using ha
  | cons l t ih =>
    intro acc ha h
    have hl : endsInQuote l = false :=
      endsInQuote_rstrip_false l (h l (List.mem_cons_self l t))
    have hstep : endsInQuote (acc ++ '\n' :: l) = false :=
      endsInQuote_append_cons acc l hl
    have := ih (acc ++ '\n' :: l) hstep (fun x hx => h x (List.mem_cons_of_mem l hx))
    simpa [joinNL, List.append_assoc] using this

/-- The captured groups of a successful description match: the first group
is the maximal digit-or-dot run after the leading whitespace, and both
numeric groups contain only their character class. -/
theorem matchDesc_groups (t g1 g2 g3 : List Char)
    (h : matchDesc t = some (g1, g2, g3)) :
    g1 = (t.dropWhile isSpaceChar).takeWhile isDigitDot ∧
    (∀ c ∈ g1, isDigitDot c = true) ∧ (∀ c ∈ g2, c.isDigit = true) := by
  unfold matchDesc at h
  dsimp only at h
  split at h
  · exact absurd h (by simp)
  · split at h
    · split at h
      · exact absurd h (by simp)
      · split at h
        · split at h
          · exact absurd h (by simp)
          · split at h
            · exact absurd h (by simp)
            · rw [Option.some.injEq, Prod.mk.injEq, Prod.mk.injEq] at h
              obtain ⟨hg1, hg2, _⟩ := h
              refine ⟨hg1.symm, ?_, ?_⟩
              · intro c hc
                rw [← hg1] at hc
                exact List.mem_takeWhile_imp hc
              · intro c hc
                rw [← hg2] at hc
                exact List.mem_takeWhile_imp hc
        · exact absurd h (by simp)
    · exact absurd h (by simp)

/-- On a path whose first dot-delimited segment is a non-empty digit
string, the code's padding (`split(".", 1)` plus `isdigit`/`zfill`) agrees
with the specification's description of the padding. -/
theorem padSection_eq_spec (g1 : List Char)
    (hdd : ∀ c ∈ g1, isDigitDot c = true)
    (hfs : g1.takeWhile (fun c => c ≠ '.') ≠ []) :
    padSection g1 = specPadSection g1 := by
  have hdigit : ∀ c ∈ g1.takeWhile (fun c => c ≠ '.'), c.isDigit = true := by
    intro c hc
    have hmem : c ∈ g1 := (List.takeWhile_sublist _).subset hc
    have hne : c ≠ '.' := by
      have := List.mem_takeWhile_imp hc
      simpa using this
    have := hdd c hmem
    rw [isDigitDot, Bool.or_eq_true] at this
    rcases this with hd | hdot
    · exact hd
    · rw [decide_eq_true_eq] at hdot
      exact absurd hdot hne
  have hIsDigit : pyIsDigitStr (g1.takeWhile (fun c => c ≠ '.')) = true := by
    rw [pyIsDigitStr, Bool.and_eq_true]
    constructor
    · simpa [List.isEmpty_iff] using hfs
    · rw [List.all_eq_true]
      exact hdigit
  by_cases hdot : '.' ∈ g1
  · obtain ⟨tl, htl⟩ : ∃ tl, g1.dropWhile (fun c => c ≠ '.') = '.' :: tl := by
      cases hd : g1.dropWhile (fun c => c ≠ '.') with
      | nil =>
        rw [List.dropWhile_eq_nil_iff] at hd
        have := hd '.' hdot
        simp at this
      | cons a tl =>
        have ha : a = '.' := by
          have := dropWhile_head_false _ g1 a tl hd
          simpa using this
        exact ⟨tl, by rw [ha]⟩
    have hnotmem : '.' ∉ g1.takeWhile (fun c => c ≠ '.') := by
      intro hmem
      have := List.mem_takeWhile_imp hmem
      simp at this
    have hsp : splitFirst ('.' :: []) g1
        = some (g1.takeWhile (fun c => c ≠ '.'), tl) := by
      conv_lhs =>
        rw [← List.takeWhile_append_dropWhile (p := fun c => decide (c ≠ '.')) (l := g1), htl]
      exact splitFirst_single_append '.' _ tl hnotmem
    have hpad : padSection g1
        = (if pyIsDigitStr (g1.takeWhile (fun c => c ≠ '.'))
              && decide (strToNat (g1.takeWhile (fun c => c ≠ '.')) < 10) then
            zfill 2 (g1.takeWhile (fun c => c ≠ '.'))
          else g1.takeWhile (fun c => c ≠ '.')) ++ '.' :: tl := by
      simp only [padSection, hsp]
    have hspec : specPadSection g1
        = (if strToNat (g1.takeWhile (fun c => c ≠ '.')) < 10 then
            zfill 2 (g1.takeWhile (fun c => c ≠ '.'))
          else g1.takeWhile (fun c => c ≠ '.')) ++ '.' :: tl := by
      rw [specPadSection, htl]
    rw [hpad, hspec, hIsDigit, Bool.true_and]
    by_cases hlt : strToNat (g1.takeWhile (fun c => c ≠ '.')) < 10
    · rw [if_pos (by simpa using hlt), if_pos hlt]
    · rw [if_neg (by simpa using hlt), if_neg hlt]
  · have hall : ∀ c ∈ g1, (fun c => decide (c ≠ '.')) c = true := by
      intro c hc
      rw [decide_eq_true_eq]
      intro hceq
      exact hdot (hceq ▸ hc)
    have htake : g1.takeWhile (fun c => c ≠ '.') = g1 := by
      rw [List.takeWhile_eq_self_iff]
      exact hall
    have hdrop : g1.dropWhile (fun c => c ≠ '.') = [] := by
      rw [List.dropWhile_eq_nil_iff]
      exact hall
    rw [padSection, splitFirst_single_none '.' g1 hdot, specPadSection, htake, hdrop,
      List.append_nil]
    rw [htake] at hIsDigit
    rw [hIsDigit, Bool.true_and]
    by_cases hlt : strToNat g1 < 10
    · rw [if_pos (by simpa using hlt), if_pos hlt]
    · rw [if_neg (by simpa using hlt), if_neg hlt]

/-! ### Claim theorems -/

/-- C1: a document in which the block extractor finds N ≥ 1 blocks converts
successfully into exactly N records, one per block, in the blocks' original
document order; no block is dropped, whatever its fields contain. -/
theorem C1_one_record_per_block (doc : List Char) (n : Nat)
    (hn : (findBlocks doc).length = n) (hpos : 1 ≤ n) :
    ∃ rs, runConversion doc = Except.ok rs ∧ rs.length = n ∧
      ∀ i : Nat, rs[i]? = ((findBlocks doc)[i]?).map parse_custom_item_block := by
  refine ⟨(findBlocks doc).map parse_custom_item_block, ?_, ?_, ?_⟩
  · have hne : ¬((findBlocks doc).isEmpty = true) := by
      intro hemp
      rw [List.isEmpty_iff] at hemp
      rw [hemp] at hn
      simp at hn
      omega
    rw [runConversion]
    rw [if_neg hne]
  · rw [List.length_map, hn]
  · intro i
    rw [List.getElem?_map]

/-- C1 witness: a two-block document yields exactly two records, in order. -/
theorem C1_one_record_per_block_witness :
    ∃ rs, runConversion "<custom_item>a</custom_item>x<custom_item>b</custom_item>".data
        = Except.ok rs ∧ rs.length = 2 ∧
      ∀ i : Nat, rs[i]? =
        ((findBlocks "<custom_item>a</custom_item>x<custom_item>b</custom_item>".data)[i]?).map
          parse_custom_item_block :=
  C1_one_record_per_block _ 2 (by decide) (by decide)

/-- C8: a document containing no `<custom_item>` marker fails with
`NoBlocksFound`; no records are produced. -/
theorem C8_no_blocks_found (doc : List Char) (h : splitFirst openTag doc = none) :
    runConversion doc = Except.error ConvError.NoBlocksFound := by
  have hfb : findBlocks doc = [] := by
    rw [findBlocks_eq, h]
  rw [runConversion]
  rw [hfb]
  rfl

/-- C8 witness: a marker-free document aborts with `NoBlocksFound`. -/
theorem C8_no_blocks_found_witness :
    runConversion "just text, no markers".data = Except.error ConvError.NoBlocksFound :=
  C8_no_blocks_found _ (by decide)

/-- C4: the reference filter keeps exactly the comma-separated, trimmed,
non-empty tokens that start with `800-53`, as a sublist of the token list
(so in original order, duplicates preserved), renders them either joined
with a comma-space or one per line, and yields the empty string — not an
error — when no token matches. -/
theorem C4_reference_filter :
    (split_reference_for_nist
        "800-171|3.5.2,800-53|IA-5(1),800-53r5|IA-5(1),CSCv7|16.2".data
      = "800-53|IA-5(1), 800-53r5|IA-5(1)".data) ∧
    (split_reference_for_nist_lines
        "800-171|3.5.2,800-53|IA-5(1),800-53r5|IA-5(1),CSCv7|16.2".data
      = "800-53|IA-5(1)\n800-53r5|IA-5(1)".data) ∧
    (split_reference_for_nist "800-53|X, 800-53|X".data = "800-53|X, 800-53|X".data) ∧
    (∀ ref, (refNistTokens ref).Sublist (refParts ref)) ∧
    (∀ ref, (∀ p ∈ refParts ref, startsWithTok nistTag p = false) →
      split_reference_for_nist ref = [] ∧ split_reference_for_nist_lines ref = []) := by
  refine ⟨by decide, by decide, by decide, ?_, ?_⟩
  · intro ref
    rw [refNistTokens]
    exact List.filter_sublist _
  · intro ref h
    have hnil : refNistTokens ref = [] := by
      rw [refNistTokens, List.filter_eq_nil_iff]
      intro p hp
      rw [h p hp]
      simp
    exact ⟨by rw [split_reference_for_nist, hnil]; rfl,
      by rw [split_reference_for_nist_lines, hnil]; rfl⟩

/-- C4 witness: a reference list with no `800-53` token filters to the
empty string in both layouts. -/
theorem C4_reference_filter_witness :
    split_reference_for_nist "800-171|3.5.2,CSCv7|16.2".data = [] ∧
    split_reference_for_nist_lines "800-171|3.5.2,CSCv7|16.2".data = [] :=
  C4_reference_filter.2.2.2.2 _ (by decide)

/-- C3: on a matching description, the produced section is the dotted path
with its first dot-delimited segment zero-padded to two digits when its
value is below ten and all later segments untouched, and the produced level
is exactly the digits captured inside the `(L…)` marker; in particular
`1.1.7 (L1) X`, `10.2.4 (L1) X` and `9 (L1) X` give sections `01.1.7`,
`10.2.4` and `09` with level `1`. -/
theorem C3_section_zero_padding :
    (parse_description_field "1.1.7 (L1) X".data = ("01.1.7".data, "1".data, "X".data)) ∧
    (parse_description_field "10.2.4 (L1) X".data = ("10.2.4".data, "1".data, "X".data)) ∧
    (parse_description_field "9 (L1) X".data = ("09".data, "1".data, "X".data)) ∧
    (∀ s g1 g2 g3, matchDesc (pyStrip s) = some (g1, g2, g3) →
      g1.takeWhile (fun c => c ≠ '.') ≠ [] →
      (parse_description_field s).1 = specPadSection g1 ∧
      (parse_description_field s).2.1 = g2) := by
  refine ⟨by decide, by decide, by decide, ?_⟩
  intro s g1 g2 g3 h hfs
  obtain ⟨-, hdd, hdig⟩ := matchDesc_groups (pyStrip s) g1 g2 g3 h
  have h1 : pyStrip g1 = g1 :=
    pyStrip_eq_self_of_all g1 (fun c hc => not_space_of_digitDot c (hdd c hc))
  have h2 : pyStrip g2 = g2 :=
    pyStrip_eq_self_of_all g2 (fun c hc => not_space_of_digit c (hdig c hc))
  rw [parse_description_field, h]
  dsimp only
  rw [h1, h2]
  exact ⟨padSection_eq_spec g1 hdd hfs, rfl⟩

/-- C3 witness: the general padding statement, instantiated. -/
theorem C3_section_zero_padding_witness :
    (parse_description_field "5.14 (L2) Y".data).1 = specPadSection "5.14".data ∧
    (parse_description_field "5.14 (L2) Y".data).2.1 = "2".data :=
  C3_section_zero_padding.2.2.2 "5.14 (L2) Y".data "5.14".data "2".data "Y".data
    (by decide) (by decide)

/-- C10: a description that is only a dotted numeric path and a level
marker, with nothing after `(L…)`, does not match the pattern — the final
group needs at least one character — so it degrades entirely to the
fallback: empty section and level, and the whole trimmed text as name. -/
theorem C10_path_level_only_fallback (path lvl : List Char)
    (hp : path ≠ []) (hpd : ∀ c ∈ path, isDigitDot c = true)
    (hl : lvl ≠ []) (hld : ∀ c ∈ lvl, c.isDigit = true) :
    parse_description_field (path ++ ' ' :: '(' :: 'L' :: (lvl ++ [')']))
      = ([], [], path ++ ' ' :: '(' :: 'L' :: (lvl ++ [')'])) := by
  obtain ⟨p0, pt, rfl⟩ : ∃ p0 pt, path = p0 :: pt := by
    cases path with
    | nil => exact absurd rfl hp
    | cons p0 pt => exact ⟨p0, pt, rfl⟩
  have hp0 : isSpaceChar p0 = false :=
    not_space_of_digitDot p0 (hpd p0 (List.mem_cons_self p0 pt))
  have hq0 : isQuoteChar p0 = false :=
    not_quote_of_digitDot p0 (hpd p0 (List.mem_cons_self p0 pt))
  have hle : lvl.isEmpty = false := by
    cases lvl with
    | nil => exact absurd rfl hl
    | cons a t => rfl
  have hlast : lastChar ((p0 :: pt) ++ ' ' :: '(' :: 'L' :: (lvl ++ [')'])) = some ')' := by
    have hshape : (p0 :: pt) ++ ' ' :: '(' :: 'L' :: (lvl ++ [')'])
        = ((p0 :: pt) ++ ' ' :: '(' :: 'L' :: lvl) ++ [')'] := by simp
    rw [hshape, lastChar_append _ [')'] (by simp)]
    rfl
  have hstrip : pyStrip ((p0 :: pt) ++ ' ' :: '(' :: 'L' :: (lvl ++ [')'])) =
      (p0 :: pt) ++ ' ' :: '(' :: 'L' :: (lvl ++ [')']) := by
    refine pyStrip_eq_self _ ?_ ?_
    · intro c hc
      rw [List.cons_append] at hc
      simp only [List.head?_cons, Option.some.injEq] at hc
      exact hc ▸ hp0
    · intro c hc
      rw [hlast] at hc
      simp only [Option.some.injEq] at hc
      subst hc
      decide
  have hquotes : pyStripQuotes ((p0 :: pt) ++ ' ' :: '(' :: 'L' :: (lvl ++ [')'])) =
      (p0 :: pt) ++ ' ' :: '(' :: 'L' :: (lvl ++ [')']) := by
    refine pyStripQuotes_eq_self _ ?_ ?_
    · intro c hc
      rw [List.cons_append] at hc
      simp only [List.head?_cons, Option.some.injEq] at hc
      exact hc ▸ hq0
    · intro c hc
      rw [hlast] at hc
      simp only [Option.some.injEq] at hc
      subst hc
      decide
  have hdw1 : List.dropWhile isSpaceChar ((p0 :: pt) ++ ' ' :: '(' :: 'L' :: (lvl ++ [')']))
      = (p0 :: pt) ++ ' ' :: '(' :: 'L' :: (lvl ++ [')']) := by
    rw [List.cons_append]
    exact List.dropWhile_cons_of_neg (by simp [hp0])
  have htw : List.takeWhile isDigitDot ((p0 :: pt) ++ ' ' :: '(' :: 'L' :: (lvl ++ [')']))
      = p0 :: pt := by
    rw [takeWhile_append_all _ _ _ hpd, List.takeWhile_cons_of_neg (by decide),
      List.append_nil]
  have hdw2 : List.dropWhile isDigitDot ((p0 :: pt) ++ ' ' :: '(' :: 'L' :: (lvl ++ [')']))
      = ' ' :: '(' :: 'L' :: (lvl ++ [')']) := by
    rw [dropWhile_append_all _ _ _ hpd, List.dropWhile_cons_of_neg (by decide)]
  have hdw3 : List.dropWhile isSpaceChar (' ' :: '(' :: 'L' :: (lvl ++ [')']))
      = '(' :: 'L' :: (lvl ++ [')']) := by
    rw [List.dropWhile_cons_of_pos (by decide), List.dropWhile_cons_of_neg (by decide)]
  have hg2 : List.takeWhile Char.isDigit (lvl ++ [')']) = lvl := by
    rw [takeWhile_append_all _ _ _ hld, List.takeWhile_cons_of_neg (by decide),
      List.append_nil]
  have hdw4 : List.dropWhile Char.isDigit (lvl ++ [')']) = [')'] := by
    rw [dropWhile_append_all _ _ _ hld, List.dropWhile_cons_of_neg (by decide)]
  have hmatch : matchDesc ((p0 :: pt) ++ ' ' :: '(' :: 'L' :: (lvl ++ [')'])) = none := by
    simp only [matchDesc]
    rw [hdw1, htw, hdw2, hdw3]
    simp [hg2, hdw4, hle]
  rw [parse_description_field, hstrip, hmatch, hquotes]

/-- C10 witness: `1.1.7 (L1)` with nothing after the marker falls back. -/
theorem C10_path_level_only_fallback_witness :
    parse_description_field ("1.1.7".data ++ ' ' :: '(' :: 'L' :: ("1".data ++ [')']))
      = ([], [], "1.1.7".data ++ ' ' :: '(' :: 'L' :: ("1".data ++ [')'])) :=
  C10_path_level_only_fallback "1.1.7".data "1".data (by decide) (by decide)
    (by decide) (by decide)

/-- C2 (amended): a value that opens a quote without closing it on its own
line accumulates the following lines, each preceded by a newline, through
the first line whose right-trimmed text ends in a double quote; the leading
quote is stripped, the trailing quote is stripped only when it is the very
last character of the accumulated text (`dropFinalQuote`), and the stored
value is the accumulation trimmed of outer whitespace.  In particular
`info : "line one` followed by `line two"` stores `line one\nline two`. -/
theorem C2_multiline_value :
    ((parse_custom_item_block "info : \"line one\nline two\"".data).Description
      = "line one\nline two".data) ∧
    (∀ kp vp ls₁ lq ls₂ data, ':' ∉ kp →
      beginsWithQuote (pyLstrip vp) = true →
      endsInQuote (pyRstrip (pyLstrip vp)) = false →
      (∀ l ∈ ls₁, endsInQuote (pyRstrip l) = false) →
      endsInQuote (pyRstrip lq) = true →
      tokenize ((kp ++ ':' :: vp) :: (ls₁ ++ lq :: ls₂)) data
        = tokenize ls₂ ((pyStrip kp,
            pyStrip (dropFinalQuote ((pyLstrip vp).drop 1
              ++ joinNL (ls₁ ++ [lq])))) :: data)) := by
  constructor
  · decide
  · intro kp vp ls₁ lq ls₂ data hk hq hne h1 hlq
    rw [tokenize_cons_colon kp vp _ data hk]
    rw [if_pos (by rw [hq, hne]; rfl)]
    rw [accumMultiline_closed ls₁ ((pyLstrip vp).drop 1) lq ls₂ h1 hlq]

/-- C2 counterexample: with trailing whitespace after the closing quote
(`line two"␣␣`), the accumulation breaks on that line but the final quote is
not at the end of the accumulated text, so — contrary to the claim — it is
NOT stripped: the stored value keeps the quote. -/
theorem C2_multiline_value_counterexample :
    (parse_custom_item_block "info : \"line one\nline two\"  ".data).Description
      = "line one\nline two\"".data ∧
    ("line one\nline two\"".data ≠ "line one\nline two".data) :=
  ⟨by decide, by decide⟩

/-- C2 witness: the amended accumulation rule, instantiated on the spec's
round-trip example. -/
theorem C2_multiline_value_witness :
    tokenize (("info ".data ++ ':' :: " \"line one".data) :: ([] ++ "line two\"".data :: [])) []
      = tokenize [] ((pyStrip "info ".data,
          pyStrip (dropFinalQuote ((pyLstrip " \"line one".data).drop 1
            ++ joinNL ([] ++ ["line two\"".data])))) :: []) :=
  C2_multiline_value.2 "info ".data " \"line one".data [] "line two\"".data [] []
    (by decide) (by decide) (by decide) (by simp) (by decide)

/-- C7: when no later line of the block ends (right-trimmed) in a double
quote, the accumulation consumes every remaining line and the accumulated
text — unterminated quote included — is still stored under the key;
tokenization terminates normally, no error. -/
theorem C7_unterminated_quote (kp vp : List Char) (ls : List (List Char))
    (data : List (List Char × List Char)) (hk : ':' ∉ kp)
    (hq : beginsWithQuote (pyLstrip vp) = true)
    (hne : endsInQuote (pyRstrip (pyLstrip vp)) = false)
    (hall : ∀ l ∈ ls, endsInQuote (pyRstrip l) = false) :
    tokenize ((kp ++ ':' :: vp) :: ls) data
      = (pyStrip kp, pyStrip ((pyLstrip vp).drop 1 ++ joinNL ls)) :: data := by
  rw [tokenize_cons_colon kp vp ls data hk]
  rw [if_pos (by rw [hq, hne]; rfl)]
  rw [accumMultiline_open ls ((pyLstrip vp).drop 1) hall]
  dsimp only
  have hacc : endsInQuote ((pyLstrip vp).drop 1) = false := by
    obtain ⟨tail, htail⟩ : ∃ tail, pyLstrip vp = '"' :: tail := by
      cases hv : pyLstrip vp with
      | nil => rw [hv] at hq; simp [beginsWithQuote] at hq
      | cons a t =>
        rw [hv] at hq
        simp only [beginsWithQuote, List.head?_cons, Option.some.injEq,
          decide_eq_true_eq] at hq
        exact ⟨t, by rw [hq]⟩
    rw [htail]
    have h2 : endsInQuote ('"' :: tail) = false := by
      rw [htail] at hne
      exact endsInQuote_rstrip_false _ hne
    simpa using endsInQuote_tail '"' tail h2
  have hnoq : endsInQuote ((pyLstrip vp).drop 1 ++ joinNL ls) = false :=
    accum_text_no_quote ls ((pyLstrip vp).drop 1) hacc hall
  rw [dropFinalQuote_eq_self _ hnoq]
  rfl

/-- C7 witness: an unterminated two-line value is stored as accumulated. -/
theorem C7_unterminated_quote_witness :
    tokenize (("info ".data ++ ':' :: " \"line one".data) :: ["line two".data]) []
      = (pyStrip "info ".data,
          pyStrip ((pyLstrip " \"line one".data).drop 1 ++ joinNL ["line two".data])) :: [] :=
  C7_unterminated_quote "info ".data " \"line one".data ["line two".data] []
    (by decide) (by decide) (by decide) (by decide)

/-- C9: every line consumed as the continuation of a multiline value —
even one containing a `:` separator — creates no field-map entry: the whole
consumed run contributes exactly the one entry of its key line, and the
tokenizer resumes after the closing line.  Concretely, a continuation line
`solution : evil"` ends up inside the `info` value while the `solution`
field stays empty. -/
theorem C9_continuation_lines_not_fields :
    (∀ kp vp ls₁ lq ls₂ data, ':' ∉ kp →
      beginsWithQuote (pyLstrip vp) = true →
      endsInQuote (pyRstrip (pyLstrip vp)) = false →
      (∀ l ∈ ls₁, endsInQuote (pyRstrip l) = false) →
      endsInQuote (pyRstrip lq) = true →
      ∃ v, tokenize ((kp ++ ':' :: vp) :: (ls₁ ++ lq :: ls₂)) data
        = tokenize ls₂ ((pyStrip kp, v) :: data)) ∧
    ((parse_custom_item_block "info : \"start\nsolution : evil\"".data).RemediationProcedure
        = [] ∧
      (parse_custom_item_block "info : \"start\nsolution : evil\"".data).Description
        = "start\nsolution : evil".data) := by
  constructor
  · intro kp vp ls₁ lq ls₂ data hk hq hne h1 hlq
    refine ⟨pyStrip (dropFinalQuote ((pyLstrip vp).drop 1 ++ joinNL (ls₁ ++ [lq]))), ?_⟩
    rw [tokenize_cons_colon kp vp _ data hk]
    rw [if_pos (by rw [hq, hne]; rfl)]
    rw [accumMultiline_closed ls₁ ((pyLstrip vp).drop 1) lq ls₂ h1 hlq]
  · exact ⟨by decide, by decide⟩

/-- C9 witness: a colon-bearing line inside a multiline value yields no
entry of its own. -/
theorem C9_continuation_lines_not_fields_witness :
    ∃ v, tokenize (("info ".data ++ ':' :: " \"a".data)
        :: (["x : y".data] ++ "z\"".data :: [])) []
      = tokenize [] ((pyStrip "info ".data, v) :: []) :=
  C9_continuation_lines_not_fields.1 "info ".data " \"a".data ["x : y".data] "z\"".data [] []
    (by decide) (by decide) (by decide) (by decide) (by decide)

/-- C6 (amended): a line without `:` is skipped; a line with `:` whose
value does not open a multiline quote is split at its FIRST `:` and the
stored value is the whitespace-trimmed text with ALL leading and trailing
double-quote characters removed (Python `strip('"')`), not merely one
balanced pair — so `""abc""` stores `abc`. -/
theorem C6_single_line_value :
    (∀ line rest data, ':' ∉ line → tokenize (line :: rest) data = tokenize rest data) ∧
    (∀ kp vp rest data, ':' ∉ kp →
      (beginsWithQuote (pyLstrip vp) && !endsInQuote (pyRstrip (pyLstrip vp))) = false →
      tokenize ((kp ++ ':' :: vp) :: rest) data
        = tokenize rest ((pyStrip kp, pyStripQuotes (pyStrip (pyLstrip vp))) :: data)) ∧
    ((parse_custom_item_block "info : \"\"abc\"\"".data).Description = "abc".data) := by
  refine ⟨?_, ?_, by decide⟩
  · intro line rest data h
    exact tokenize_cons_skip line rest data (splitFirst_single_none ':' line h)
  · intro kp vp rest data hk hb
    rw [tokenize_cons_colon kp vp rest data hk]
    rw [if_neg (by simp [hb])]

/-- C6 counterexample: a double quote on only one side of the value is
stripped too — `info : abc"` stores `abc`, not `abc"` as the claim says. -/
theorem C6_single_line_value_counterexample :
    (parse_custom_item_block "info : abc\"".data).Description = "abc".data ∧
    ("abc".data ≠ "abc\"".data) :=
  ⟨by decide, by decide⟩

/-- C6 witness: the single-line storage rule, instantiated. -/
theorem C6_single_line_value_witness :
    tokenize (("info ".data ++ ':' :: " value".data) :: []) []
      = tokenize [] ((pyStrip "info ".data,
          pyStripQuotes (pyStrip (pyLstrip " value".data))) :: []) :=
  C6_single_line_value.2.1 "info ".data " value".data [] [] (by decide) (by decide)

/-- C5 (amended): when the description does not match the pattern, the
record gets empty section and level and, as name, the trimmed description
with ALL leading and trailing double-quote characters stripped (even an
unpaired one); the block is not dropped — the conversion still emits a
record for it. -/
theorem C5_description_fallback :
    (∀ block,
      matchDesc (pyStrip (lookupField (blockFields block) "description".data)) = none →
      (parse_custom_item_block block).Section = [] ∧
      (parse_custom_item_block block).Level = [] ∧
      (parse_custom_item_block block).Name
        = pyStripQuotes (pyStrip (lookupField (blockFields block) "description".data))) ∧
    (runConversion "<custom_item>description: Random free text</custom_item>".data
      = Except.ok [parse_custom_item_block "description: Random free text".data]) ∧
    ((parse_custom_item_block "description: Random free text".data).Section = [] ∧
      (parse_custom_item_block "description: Random free text".data).Level = [] ∧
      (parse_custom_item_block "description: Random free text".data).Name
        = "Random free text".data) := by
  refine ⟨?_, by rfl, by decide, by decide, by decide⟩
  intro block h
  unfold parse_custom_item_block
  dsimp only
  rw [parse_description_field, h]
  exact ⟨rfl, rfl, rfl⟩

/-- C5 counterexample: an unpaired leading quote IS stripped from the
fallback name — `"Random free text` yields name `Random free text`, not the
claim's quote-preserving `"Random free text`. -/
theorem C5_description_fallback_counterexample :
    parse_description_field "\"Random free text".data = ([], [], "Random free text".data) ∧
    ("Random free text".data ≠ "\"Random free text".data) :=
  ⟨by decide, by decide⟩

/-- C5 witness: the fallback rule on a concrete malformed block. -/
theorem C5_description_fallback_witness :
    (parse_custom_item_block "description: xyz".data).Section = [] ∧
    (parse_custom_item_block "description: xyz".data).Level = [] ∧
    (parse_custom_item_block "description: xyz".data).Name
      = pyStripQuotes (pyStrip
          (lookupField (blockFields "description: xyz".data) "description".data)) :=
  C5_description_fallback.1 "description: xyz".data (by decide)
